import Mathlib

/-!
Verification of the persistence and consistency core of a phone-provisioning
inventory store.  The definitions below are a shallow embedding of:

- `src/provisioner/utils.py` (MAC normalization, OUI extraction, vendor lookup),
- `src/provisioner/inventory.py` (record model and effective-settings merge),
- `src/provisioner/persistence/yaml_repository.py` (repository mutations,
  secrets split, atomic write protocol).

Python strings are modelled over their character lists; Python `dict`s backing
the secrets file are modelled as association lists with first-occurrence
semantics, exactly the view a single-key-per-dict YAML mapping provides.
Raised exceptions are modelled as `Option`/`Except` error results.
-/

namespace Provisioner

/-! ## Identity and normalization (`utils.py`) -/

/-- ASCII whitespace characters removed by Python `str.strip()`. -/
def isPySpace (c : Char) : Bool :=
  c = ' ' || c = '\t' || c = '\n' || c = '\r' || c = '\x0b' || c = '\x0c'

/-- Python `str.lower()` on an ASCII character. -/
def pyLowerChar (c : Char) : Char :=
  if 65 ≤ c.toNat && c.toNat ≤ 90 then Char.ofNat (c.toNat + 32) else c

/-- Python `str.upper()` on an ASCII character. -/
def pyUpperChar (c : Char) : Char :=
  if 97 ≤ c.toNat && c.toNat ≤ 122 then Char.ofNat (c.toNat - 32) else c

/-- Python `str.lower()`. -/
def pyLower (s : String) : String := String.mk (s.data.map pyLowerChar)

/-- Python `str.strip()`: drop leading and trailing whitespace. -/
def pyStrip (l : List Char) : List Char :=
  ((l.dropWhile isPySpace).reverse.dropWhile isPySpace).reverse

/-- A separator removed by `re.sub(r"[:\-.]", "", mac)`. -/
def isMacSep (c : Char) : Bool := c = ':' || c = '-' || c = '.'

/-- `mac.strip().lower()` followed by separator removal (utils.py line 23). -/
def macClean (l : List Char) : List Char :=
  ((pyStrip l).map pyLowerChar).filter (fun c => !isMacSep c)

/-- A lowercase hexadecimal digit, the character class `[0-9a-f]`. -/
def isHexLower (c : Char) : Bool :=
  (48 ≤ c.toNat && c.toNat ≤ 57) || (97 ≤ c.toNat && c.toNat ≤ 102)

/-- Python `re.match(r"^[0-9a-f]{12}$", s)` viewed as a Bool.  `re.match`
anchors at the start, and `$` matches either at the end of the string or just
before a single trailing newline, so the pattern also accepts twelve hex
digits followed by `'\n'`. -/
def hexMatch12 (s : List Char) : Bool :=
  (s.take 12).length = 12 && (s.take 12).all isHexLower &&
    (s.drop 12 = [] || s.drop 12 = ['\n'])

/-- `normalize_mac` (utils.py lines 7-29).  `none` models the raised
`ValueError` ("Invalid MAC address"), the `InvalidIdentifier` error of the
specification. -/
def normalizeMac (mac : String) : Option String :=
  let cleaned := macClean mac.data
  if hexMatch12 cleaned then some (String.mk cleaned) else none

/-- `get_mac_oui` (utils.py lines 59-69): first six characters of the
normalized MAC, uppercased.  `none` models the `ValueError` propagated out of
`normalize_mac`. -/
def getMacOui (mac : String) : Option String :=
  (normalizeMac mac).map (fun m => String.mk ((m.data.take 6).map pyUpperChar))

/-- Prefix normalization used by `detect_vendor` (utils.py line 86):
`p.upper().replace(":", "").replace("-", "")`.  Replacing a single character
by the empty string removes every occurrence of that character; periods are
not touched. -/
def normPfx (p : String) : String :=
  String.mk ((p.data.map pyUpperChar).filter (fun c => !(c = ':' || c = '-')))

/-- The vendor-scan loop of `detect_vendor` (utils.py lines 84-90), over the
insertion-ordered entries of `oui_map`. -/
def findVendor (oui : String) : List (String × List String) → Option String
  | [] => none
  | (vendor, prefixes) :: rest =>
    if oui ∈ prefixes.map normPfx then some (pyLower vendor)
    else findVendor oui rest

/-- `detect_vendor` (utils.py lines 72-90).  The outer `none` models the
`ValueError` raised while normalizing an invalid MAC; `some none` is the
function returning Python `None`. -/
def detectVendor (mac : String) (ouiMap : List (String × List String)) :
    Option (Option String) :=
  (getMacOui mac).map (fun oui => findVendor oui ouiMap)

/-! ## Record model and effective settings (`inventory.py`) -/

/-- `PhoneEntry` (inventory.py lines 12-36): the pydantic-validated in-memory
record.  Overrides are `Option`s; the pydantic `mac` validator normalizes the
MAC at construction, which theorems state as a hypothesis where needed. -/
structure PhoneEntry where
  mac : String
  model : String
  extension : String
  display_name : String
  password : String
  pbx_server : Option String := none
  pbx_port : Option Int := none
  transport : Option String := none
  label : Option String := none
  codecs : Option (List String) := none
deriving Repr, DecidableEq

/-- `GlobalSettings` (inventory.py lines 39-46). -/
structure GlobalSettings where
  pbx_server : String := "pbx.example.com"
  pbx_port : Int := 5060
  transport : String := "UDP"
  ntp_server : String := "pool.ntp.org"
  timezone : String := "America/New_York"
  codecs : List String := ["PCMU", "PCMA", "G722"]
deriving Repr, DecidableEq

/-- Python `x or y` for `x : Optional[str]`: `None` and `""` are falsy. -/
def pyOrStr : Option String → String → String
  | some s, d => if s = "" then d else s
  | none, d => d

/-- Python `x or y` for `x : Optional[int]`: `None` and `0` are falsy. -/
def pyOrInt : Option Int → Int → Int
  | some n, d => if n = 0 then d else n
  | none, d => d

/-- Python `x or y` for `x : Optional[list]`: `None` and `[]` are falsy. -/
def pyOrList : Option (List String) → List String → List String
  | some l, d => if l = [] then d else l
  | none, d => d

/-- `PhoneEntry.line_label` (inventory.py lines 33-36):
`self.label or self.display_name`. -/
def PhoneEntry.lineLabel (p : PhoneEntry) : String :=
  pyOrStr p.label p.display_name

/-- The settings dictionary built by `Inventory.get_effective_settings`
(inventory.py lines 81-97). -/
structure EffectiveSettings where
  pbx_server : String
  pbx_port : Int
  transport : String
  ntp_server : String
  timezone : String
  codecs : List String
  extension : String
  display_name : String
  password : String
  label : String
  mac : String
  model : String
deriving Repr, DecidableEq

/-- `Inventory.get_effective_settings` (inventory.py lines 81-97), translated
field by field; each `phone.x or self.global_settings.x` is Python truthiness
(`pyOr*`). -/
def getEffectiveSettings (g : GlobalSettings) (p : PhoneEntry) :
    EffectiveSettings where
  pbx_server := pyOrStr p.pbx_server g.pbx_server
  pbx_port := pyOrInt p.pbx_port g.pbx_port
  transport := pyOrStr p.transport g.transport
  ntp_server := g.ntp_server
  timezone := g.timezone
  codecs := pyOrList p.codecs g.codecs
  extension := p.extension
  display_name := p.display_name
  password := p.password
  label := p.lineLabel
  mac := p.mac
  model := p.model

/-! ## Repository state (`yaml_repository.py`)

The durable state a `YAMLRepository` mutates: the `phones:` list of
`phones.yml`, and the optional secrets file with its `phone_passwords:`
mapping.  A missing `phones.yml` loads as `{}` and hence as the empty list,
so the list alone is a faithful view.  `writeEvents` records each
`_atomic_write_yaml` call (every such call runs a backup/write cycle). -/

/-- One phone block of `phones.yml`, as written by `add_phone` (lines 80-98):
mandatory keys plus optional override keys; the `password` key is absent when
the secrets split stripped it. -/
structure PhoneDict where
  mac : String
  model : String
  extension : String
  display_name : String
  password : Option String := none
  pbx_server : Option String := none
  pbx_port : Option Int := none
  transport : Option String := none
  label : Option String := none
  codecs : Option (List String) := none
deriving Repr, DecidableEq

/-- Python `dict` lookup `m.get(k)` on a YAML mapping (unique keys). -/
def dictGet : List (String × String) → String → Option String
  | [], _ => none
  | (k', v) :: rest, k => if k' = k then some v else dictGet rest k

/-- Python `m[k] = v`: update the existing key in place, else append. -/
def dictSet : List (String × String) → String → String → List (String × String)
  | [], k, v => [(k, v)]
  | (k', v') :: rest, k, v =>
    if k' = k then (k', v) :: rest else (k', v') :: dictSet rest k v

/-- Python `del m[k]` on a unique-key mapping. -/
def dictDel : List (String × String) → String → List (String × String)
  | [], _ => []
  | (k', v') :: rest, k => if k' = k then rest else (k', v') :: dictDel rest k

/-- Which durable file an `_atomic_write_yaml` call targets. -/
inductive FileId
  | phones
  | secrets
deriving Repr, DecidableEq

/-- Durable repository state.  `secretsFile = none` means the secrets file
does not exist on disk; `some m` means it exists and its `phone_passwords`
mapping is `m`. -/
structure RepoState where
  phones : List PhoneDict
  secretsConfigured : Bool
  secretsFile : Option (List (String × String)) := none
  writeEvents : List FileId := []
deriving Repr, DecidableEq

/-- Errors raised by the repository operations.  `loadFailed` models the
`ValueError`/pydantic `ValidationError` raised while rebuilding the
`Inventory` from disk (invalid stored MAC or unresolvable password). -/
inductive RepoError
  | duplicateMac
  | duplicateExt
  | phoneNotFound
  | invalidMac
  | loadFailed
deriving Repr, DecidableEq

/-- The `phone_passwords` mapping `load_inventory` consults
(inventory.py lines 127-138): the secrets file's mapping when a secrets file
is configured, else empty; a configured-but-missing file also loads as empty. -/
def secretsMapOf (st : RepoState) : List (String × String) :=
  if st.secretsConfigured then st.secretsFile.getD [] else []

/-- One phone block can be turned into a `PhoneEntry` by `load_inventory`
(inventory.py lines 139-145): its MAC normalizes, and a password is available
either from the secrets mapping or from the block itself. -/
def phoneLoadable (m : List (String × String)) (d : PhoneDict) : Bool :=
  (normalizeMac d.mac).isSome && ((dictGet m d.extension).isSome || d.password.isSome)

/-- `load_inventory` succeeds on the current durable state. -/
def loadOk (st : RepoState) : Bool :=
  st.phones.all (phoneLoadable (secretsMapOf st))

/-- `_update_secret_password` (yaml_repository.py lines 426-438): no-op unless
a secrets file is configured; otherwise load (a missing file loads as `{}`),
set the key, and atomically write the secrets file. -/
def updateSecretPassword (st : RepoState) (ext pw : String) : RepoState :=
  if st.secretsConfigured then
    { st with
      secretsFile := some (dictSet (st.secretsFile.getD []) ext pw)
      writeEvents := st.writeEvents ++ [FileId.secrets] }
  else st

/-- `_remove_secret_password` (yaml_repository.py lines 440-454): no-op unless
a secrets file is configured and exists; writes only when the key was
present. -/
def removeSecretPassword (st : RepoState) (ext : String) : RepoState :=
  if st.secretsConfigured then
    match st.secretsFile with
    | none => st
    | some m =>
      if (dictGet m ext).isSome then
        { st with
          secretsFile := some (dictDel m ext)
          writeEvents := st.writeEvents ++ [FileId.secrets] }
      else st
  else st

/-- `if x:` on an optional string: keep the value only when truthy. -/
def optTruthyStr : Option String → Option String
  | some s => if s = "" then none else some s
  | none => none

/-- `if x:` on an optional int: keep the value only when truthy. -/
def optTruthyInt : Option Int → Option Int
  | some n => if n = 0 then none else some n
  | none => none

/-- `if x:` on an optional list: keep the value only when truthy. -/
def optTruthyList : Option (List String) → Option (List String)
  | some l => if l = [] then none else some l
  | none => none

/-- The phone block `add_phone` builds (yaml_repository.py lines 80-98):
mandatory keys always, optional keys only when the override is
Python-truthy (`if phone.pbx_server:` etc.). -/
def phoneToDict (p : PhoneEntry) : PhoneDict where
  mac := p.mac
  model := p.model
  extension := p.extension
  display_name := p.display_name
  password := some p.password
  pbx_server := optTruthyStr p.pbx_server
  pbx_port := optTruthyInt p.pbx_port
  transport := optTruthyStr p.transport
  label := optTruthyStr p.label
  codecs := optTruthyList p.codecs

/-- `add_phone` (yaml_repository.py lines 54-115).  Returns the durable state
as it stands when the call returns or raises, plus the outcome.  The call
first rebuilds the inventory (duplicate checks), then appends the block and
writes; with an existing configured secrets file it then writes the secret
and rewrites `phones.yml` with the password stripped; finally it reloads the
inventory singleton. -/
def addPhoneWrites (st : RepoState) (p : PhoneEntry) : RepoState :=
  let d := phoneToDict p
  let st1 : RepoState :=
    { st with phones := st.phones ++ [d]
              writeEvents := st.writeEvents ++ [FileId.phones] }
  if st.secretsConfigured && st.secretsFile.isSome then
    let stS := updateSecretPassword st1 p.extension p.password
    { stS with phones := st.phones ++ [{ d with password := none }]
               writeEvents := stS.writeEvents ++ [FileId.phones] }
  else st1

/-- The validation phase and outcome of `add_phone`: the duplicate checks
happen on the freshly loaded inventory before any write; only when both pass
does the write phase (`addPhoneWrites`) run, followed by the inventory
reload. -/
def addPhone (st : RepoState) (p : PhoneEntry) : RepoState × Except RepoError Unit :=
  if ¬ loadOk st then (st, .error .loadFailed)
  else
    match normalizeMac p.mac with
    | none => (st, .error .invalidMac)
    | some nm =>
      if st.phones.any (fun d => normalizeMac d.mac == some nm) then
        (st, .error .duplicateMac)
      else if st.phones.any (fun d => d.extension == p.extension) then
        (st, .error .duplicateExt)
      else
        let st2 := addPhoneWrites st p
        if loadOk st2 then (st2, .ok ()) else (st2, .error .loadFailed)

/-- The `updates` dictionary accepted by `update_phone`: each field is
present (`some`) or absent.  Setting an override field to Python `None`
through this dictionary is outside the modelled surface. -/
structure PhoneUpdates where
  mac : Option String := none
  model : Option String := none
  extension : Option String := none
  display_name : Option String := none
  password : Option String := none
  pbx_server : Option String := none
  pbx_port : Option Int := none
  transport : Option String := none
  label : Option String := none
  codecs : Option (List String) := none
deriving Repr, DecidableEq

/-- `current_phone[key] = value` for an optional-override key. -/
def setField (u old : Option α) : Option α :=
  match u with
  | some v => some v
  | none => old

/-- The lookup loop of `update_phone`/`delete_phone` (lines 137-140, 209-213):
scan the stored blocks, normalizing each stored MAC (a `ValueError` from an
invalid stored MAC propagates), until one matches the normalized argument. -/
def findPhoneIdx : List PhoneDict → String → Except RepoError Nat
  | [], _ => .error .phoneNotFound
  | d :: rest, nm =>
    match normalizeMac d.mac with
    | none => .error .invalidMac
    | some m => if m = nm then .ok 0 else (findPhoneIdx rest nm).map (· + 1)

/-- The `key == "password"` arm of the update loop (lines 158-168): with an
existing configured secrets file the password goes to the secrets file keyed
by `updates.get("extension", old_extension)` and is kept out of the block;
otherwise it is stored in the block. -/
def passwordStep (st : RepoState) (cur : PhoneDict) (u : PhoneUpdates) :
    RepoState × PhoneDict :=
  match u.password with
  | some pw =>
    if st.secretsConfigured && st.secretsFile.isSome then
      (updateSecretPassword st (u.extension.getD cur.extension) pw, cur)
    else (st, { cur with password := some pw })
  | none => (st, cur)

/-- The non-password arms of the update loop: `current_phone[key] = value`
for every supplied key. -/
def applyFieldUpdates (d : PhoneDict) (u : PhoneUpdates) : PhoneDict :=
  { d with
    mac := u.mac.getD d.mac
    model := u.model.getD d.model
    extension := u.extension.getD d.extension
    display_name := u.display_name.getD d.display_name
    pbx_server := setField u.pbx_server d.pbx_server
    pbx_port := setField u.pbx_port d.pbx_port
    transport := setField u.transport d.transport
    label := setField u.label d.label
    codecs := setField u.codecs d.codecs }

/-- The secret-migration block (lines 176-183): when the extension changed,
a secrets file is configured, the old extension has a secret entry, and no
explicit password was supplied, move the entry to the new extension key
(insert new key with the same value, delete the old key) and write the
secrets file. -/
def migrationStep (st : RepoState) (oldExt : String) (u : PhoneUpdates) :
    RepoState :=
  match u.extension with
  | some e =>
    if oldExt ≠ e ∧ st.secretsConfigured then
      let m := st.secretsFile.getD []
      match dictGet m oldExt with
      | some v =>
        if u.password = none then
          { st with secretsFile := some (dictDel (dictSet m e v) oldExt)
                    writeEvents := st.writeEvents ++ [FileId.secrets] }
        else st
      | none => st
    else st
  | none => st

/-- The committing tail of `update_phone` (yaml_repository.py lines 156-186):
the field-update loop with its special password handling, the `phones.yml`
write, the secret-migration block, and the inventory reload. -/
def updatePhoneCommit (st : RepoState) (i : Nat) (cur : PhoneDict)
    (u : PhoneUpdates) : RepoState × Except RepoError Unit :=
  let s1 := passwordStep st cur u
  let d2 := applyFieldUpdates s1.2 u
  let stB : RepoState :=
    { s1.1 with phones := s1.1.phones.set i d2
                writeEvents := s1.1.writeEvents ++ [FileId.phones] }
  let stC := migrationStep stB cur.extension u
  if loadOk stC then (stC, .ok ()) else (stC, .error .loadFailed)

/-- `update_phone` (yaml_repository.py lines 117-188): normalize the lookup
MAC, find the block, run the extension-uniqueness pre-check when the
extension is changing (which reloads the inventory first), then commit. -/
def updatePhone (st : RepoState) (mac : String) (u : PhoneUpdates) :
    RepoState × Except RepoError Unit :=
  match normalizeMac mac with
  | none => (st, .error .invalidMac)
  | some nm =>
    match findPhoneIdx st.phones nm with
    | .error e => (st, .error e)
    | .ok i =>
      match st.phones[i]? with
      | none => (st, .error .phoneNotFound)
      | some cur =>
        match u.extension with
        | some e =>
          if e ≠ cur.extension then
            if ¬ loadOk st then (st, .error .loadFailed)
            else if st.phones.any
                (fun d' => d'.extension == e && !(normalizeMac d'.mac == some nm)) then
              (st, .error .duplicateExt)
            else updatePhoneCommit st i cur u
          else updatePhoneCommit st i cur u
        | none => updatePhoneCommit st i cur u

/-- `delete_phone` (yaml_repository.py lines 190-231): find the block, remove
it, write, drop the secrets entry for its (truthy) extension, reload. -/
def deletePhone (st : RepoState) (mac : String) : RepoState × Except RepoError Unit :=
  match normalizeMac mac with
  | none => (st, .error .invalidMac)
  | some nm =>
    match findPhoneIdx st.phones nm with
    | .error e => (st, .error e)
    | .ok i =>
      match st.phones[i]? with
      | none => (st, .error .phoneNotFound)
      | some cur =>
        let st1 : RepoState :=
          { st with phones := st.phones.eraseIdx i
                    writeEvents := st.writeEvents ++ [FileId.phones] }
        let st2 : RepoState :=
          if cur.extension ≠ "" ∧ st1.secretsConfigured then
            removeSecretPassword st1 cur.extension
          else st1
        if loadOk st2 then (st2, .ok ()) else (st2, .error .loadFailed)

/-! ## Mutation sequences and the uniqueness invariants -/

/-- A repository mutation. -/
inductive RepoOp
  | add (p : PhoneEntry)
  | update (mac : String) (u : PhoneUpdates)
  | del (mac : String)
deriving Repr

/-- Dispatch one mutation. -/
def applyOp (st : RepoState) : RepoOp → RepoState × Except RepoError Unit
  | .add p => addPhone st p
  | .update mac u => updatePhone st mac u
  | .del mac => deletePhone st mac

/-- Run mutations in order, stopping at the first failure; the Bool is
whether every mutation succeeded. -/
def runOps : RepoState → List RepoOp → RepoState × Bool
  | st, [] => (st, true)
  | st, op :: rest =>
    match applyOp st op with
    | (st', .ok _) => runOps st' rest
    | (st', .error _) => (st', false)

/-- Boolean pairwise predicate on a list. -/
def pairwiseB (r : α → α → Bool) : List α → Bool
  | [] => true
  | a :: rest => rest.all (r a) && pairwiseB r rest

/-- The normalized hardware identifier of a stored block. -/
def macKey (d : PhoneDict) : Option String := normalizeMac d.mac

/-- No two stored blocks share a normalized hardware identifier. -/
def macUniqueB (l : List PhoneDict) : Bool :=
  pairwiseB (fun a b => macKey a != macKey b) l

/-- No two stored blocks share an extension. -/
def extUniqueB (l : List PhoneDict) : Bool :=
  pairwiseB (fun a b => a.extension != b.extension) l

/-- The inventory uniqueness invariants of the specification. -/
def invariantB (st : RepoState) : Bool :=
  macUniqueB st.phones && extUniqueB st.phones

/-- An update is identifier-safe if any new `mac` it carries does not collide,
after normalization, with a block other than the one being updated.  `add`
and `delete` are always safe: they validate themselves. -/
def safeOp (st : RepoState) : RepoOp → Bool
  | .update mac u =>
    match u.mac with
    | none => true
    | some newMac =>
      st.phones.all fun d =>
        !(macKey d == normalizeMac newMac) || (macKey d == normalizeMac mac)
  | _ => true

/-- Every mutation of the sequence is identifier-safe in the state where it
runs. -/
def safeOps : RepoState → List RepoOp → Bool
  | _, [] => true
  | st, op :: rest => safeOp st op && safeOps (applyOp st op).1 rest

/-! ## Atomic write protocol (`_atomic_write_yaml`, yaml_repository.py 383-424)

The protocol manipulates one target file, a sibling temporary file, and a
backup copy.  Contents are strings (the serialized YAML text); `none` means
the file does not exist.  A failure oracle says which protocol step raises;
`os.replace` (step 4) is atomic: on failure the target is untouched.  The
`except` block restores the backup over the target when both exist and
unlinks the temporary file, then raises `PersistenceError` wrapping the
original exception. -/

/-- A step of the write protocol that can raise. -/
inductive WStep
  | backup
  | dump
  | parse
  | swap
deriving Repr, DecidableEq

/-- The target file's content (`none` = absent). -/
structure AtomicFile where
  target : Option String
deriving Repr, DecidableEq

/-- Outcome of `_atomic_write_yaml`: normal return, or the raised
`PersistenceError` carrying the step whose exception it wraps. -/
inductive WResult
  | ok
  | persistenceError (cause : WStep)
deriving Repr, DecidableEq

/-- The `except` block (lines 414-424): restore the backup over the target
when a backup was taken and the target exists, unlink the leftover temporary
file, raise `PersistenceError` carrying the cause. -/
def rollbackCleanup (backupContent : Option String) (target : Option String)
    (cause : WStep) : AtomicFile × WResult :=
  let target' :=
    match backupContent, target with
    | some b, some _ => some b
    | _, _ => target
  ({ target := target' }, .persistenceError cause)

/-- `_atomic_write_yaml` over the failure oracle `fails` and the serializer
`dumpFn` (for `yaml.dump`): backup if the target exists, write the serialized
document to the temporary path, re-parse it, atomically rename it over the
target; on any failure run the rollback/cleanup block. -/
def atomicWriteYaml (fails : WStep → Bool) (dumpFn : α → String)
    (fs : AtomicFile) (data : α) : AtomicFile × WResult :=
  if fs.target.isSome && fails .backup then
    rollbackCleanup none fs.target .backup
  else
    let backupContent := if fs.target.isSome then fs.target else none
    if fails .dump then rollbackCleanup backupContent fs.target .dump
    else if fails .parse then rollbackCleanup backupContent fs.target .parse
    else if fails .swap then rollbackCleanup backupContent fs.target .swap
    else ({ target := some (dumpFn data) }, .ok)

/-- The first of the three document-handling steps (2-4) to fail, given that
at least one fails. -/
def firstFailing (fails : WStep → Bool) : WStep :=
  if fails .dump then .dump else if fails .parse then .parse else .swap

/-! ## Concrete sample data for witnesses and counterexamples -/

/-- A validated phone entry (MAC already canonical). -/
def samplePhoneA : PhoneEntry :=
  { mac := "aabbccddeeff", model := "yealink_t23g", extension := "100"
    display_name := "Alice", password := "pw1" }

/-- A second validated phone entry. -/
def samplePhoneB : PhoneEntry :=
  { mac := "112233445566", model := "fanvil_v64", extension := "101"
    display_name := "Bob", password := "pw2" }

/-- The stored block for `samplePhoneA` without a secrets split. -/
def sampleDictA : PhoneDict :=
  { mac := "aabbccddeeff", model := "yealink_t23g", extension := "100"
    display_name := "Alice", password := some "pw1" }

/-- The stored block for `samplePhoneB` without a secrets split. -/
def sampleDictB : PhoneDict :=
  { mac := "112233445566", model := "fanvil_v64", extension := "101"
    display_name := "Bob", password := some "pw2" }

/-- A stored block whose password lives in the secrets file. -/
def sampleDictS : PhoneDict :=
  { mac := "001565aabbcc", model := "yealink_t23g", extension := "200"
    display_name := "Desk", password := none }

/-- An empty repository without a secrets split. -/
def emptyRepo : RepoState := { phones := [], secretsConfigured := false }

/-- A two-phone repository without a secrets split. -/
def twoPhoneRepo : RepoState :=
  { phones := [sampleDictA, sampleDictB], secretsConfigured := false }

/-- A repository whose configured secrets file exists and holds the secret
for extension `"200"`. -/
def secretsRepo : RepoState :=
  { phones := [sampleDictS], secretsConfigured := true
    secretsFile := some [("200", "secret1")] }

/-- A repository with a configured secrets path whose file does not exist. -/
def missingSecretsRepo : RepoState :=
  { phones := [], secretsConfigured := true, secretsFile := none }

/-- A successful mutation sequence exercising add, update and delete. -/
def sampleOps : List RepoOp :=
  [.add samplePhoneA, .add samplePhoneB,
   .update "aabbccddeeff" { extension := some "103" },
   .del "112233445566"]

/-! ## Helper lemmas -/

theorem pairwiseB_iff (r : α → α → Bool) (l : List α) :
    pairwiseB r l = true ↔ l.Pairwise (fun a b => r a b = true) := by
  induction l with
  | nil => simp [pairwiseB]
  | cons a rest ih =>
    simp [pairwiseB, Bool.and_eq_true, List.all_eq_true, ih, List.pairwise_cons]

theorem macUniqueB_iff (l : List PhoneDict) :
    macUniqueB l = true ↔ l.Pairwise (fun a b => macKey a ≠ macKey b) := by
  rw [macUniqueB, pairwiseB_iff]
  constructor <;> exact fun h => h.imp (by simp [bne_iff_ne])

theorem extUniqueB_iff (l : List PhoneDict) :
    extUniqueB l = true ↔ l.Pairwise (fun a b => a.extension ≠ b.extension) := by
  rw [extUniqueB, pairwiseB_iff]
  constructor <;> exact fun h => h.imp (by simp [bne_iff_ne])

theorem pairwise_get_of_ne {R : α → α → Prop} (hsym : ∀ a b, R a b → R b a)
    {l : List α} (hl : l.Pairwise R) {i j : Nat} (hi : i < l.length)
    (hj : j < l.length) (hij : i ≠ j) : R (l.get ⟨i, hi⟩) (l.get ⟨j, hj⟩) := by
  rw [List.pairwise_iff_getElem] at hl
  rcases Nat.lt_or_ge i j with h | h
  · exact hl i j hi hj h
  · exact hsym _ _ (hl j i hj hi (by omega))

theorem pairwise_set_of {R : α → α → Prop} (hsym : ∀ a b, R a b → R b a)
    {l : List α} (hl : l.Pairwise R) (i : Nat) (a : α)
    (ha : ∀ j (hj : j < l.length), j ≠ i → R a (l.get ⟨j, hj⟩)) :
    (l.set i a).Pairwise R := by
  rw [List.pairwise_iff_getElem] at hl ⊢
  intro m n hm hn hmn
  rw [List.length_set] at hm hn
  rw [List.getElem_set, List.getElem_set]
  by_cases him : i = m
  · subst him
    by_cases hin : i = n
    · omega
    · simp only [if_pos rfl, if_neg hin]
      simpa using ha n hn (by omega)
  · by_cases hin : i = n
    · subst hin
      simp only [if_pos rfl, if_neg him]
      simpa using hsym _ _ (ha m hm (by omega))
    · simp only [if_neg him, if_neg hin]
      exact hl m n hm hn hmn

theorem countP_eq_one_of_key {β : Type} [BEq β] [LawfulBEq β] (key : α → β)
    {l : List α} (hpw : l.Pairwise (fun a b => key a ≠ key b)) {k : β}
    {d : α} (hd : d ∈ l) (hk : key d = k) :
    l.countP (fun x => key x == k) = 1 := by
  induction l with
  | nil => cases hd
  | cons a rest ih =>
    rcases List.pairwise_cons.mp hpw with ⟨ha, hrest⟩
    rw [List.countP_cons]
    rcases List.mem_cons.mp hd with rfl | hdrest
    · have hz : rest.countP (fun x => key x == k) = 0 := by
        rw [List.countP_eq_zero]
        intro x hx
        simpa [hk] using fun hcon => ha x hx (by rw [hcon, hk])
      simp [hz, hk]
    · have hne : key a ≠ k := fun hcon => ha d hdrest (by rw [hcon, hk])
      simp [ih hrest hdrest, hne]

theorem dictGet_dictSet_self (m : List (String × String)) (k v : String) :
    dictGet (dictSet m k v) k = some v := by
  induction m with
  | nil => simp [dictSet, dictGet]
  | cons kv rest ih =>
    obtain ⟨k', v'⟩ := kv
    by_cases h : k' = k <;> simp [dictSet, dictGet, h, ih]

theorem dictGet_dictSet_ne (m : List (String × String)) (k v k' : String)
    (h : k' ≠ k) : dictGet (dictSet m k v) k' = dictGet m k' := by
  induction m with
  | nil =>
    simp only [dictSet, dictGet]
    rw [if_neg (fun hc => h hc.symm)]
  | cons kv rest ih =>
    obtain ⟨a, b⟩ := kv
    by_cases ha : a = k <;> by_cases hb : a = k' <;>
      simp_all [dictSet, dictGet]

theorem dictGet_eq_none_of_not_mem (m : List (String × String)) (k : String)
    (h : k ∉ m.map Prod.fst) : dictGet m k = none := by
  induction m with
  | nil => rfl
  | cons kv rest ih =>
    obtain ⟨a, b⟩ := kv
    simp only [List.map_cons, List.mem_cons] at h
    push_neg at h
    simp only [dictGet]
    rw [if_neg (fun hc => h.1 hc.symm)]
    exact ih h.2

theorem dictGet_dictDel_self (m : List (String × String)) (k : String)
    (hnd : (m.map Prod.fst).Nodup) : dictGet (dictDel m k) k = none := by
  induction m with
  | nil => rfl
  | cons kv rest ih =>
    obtain ⟨a, b⟩ := kv
    simp only [List.map_cons, List.nodup_cons] at hnd
    by_cases ha : a = k
    · simpa [dictDel, ha] using dictGet_eq_none_of_not_mem rest k (ha ▸ hnd.1)
    · simp [dictDel, dictGet, ha, ih hnd.2]

theorem dictGet_dictDel_ne (m : List (String × String)) (k x : String)
    (h : x ≠ k) : dictGet (dictDel m k) x = dictGet m x := by
  induction m with
  | nil => rfl
  | cons kv rest ih =>
    obtain ⟨a, b⟩ := kv
    by_cases ha : a = k <;> by_cases hx : a = x <;>
      simp_all [dictDel, dictGet]

theorem mem_keys_dictSet (m : List (String × String)) (k v x : String) :
    x ∈ (dictSet m k v).map Prod.fst ↔ x ∈ m.map Prod.fst ∨ x = k := by
  induction m with
  | nil => simp [dictSet]
  | cons kv rest ih =>
    obtain ⟨a, b⟩ := kv
    by_cases ha : a = k <;> simp_all [dictSet] <;> tauto

theorem keys_nodup_dictSet (m : List (String × String)) (k v : String)
    (hnd : (m.map Prod.fst).Nodup) : ((dictSet m k v).map Prod.fst).Nodup := by
  induction m with
  | nil => simp [dictSet]
  | cons kv rest ih =>
    obtain ⟨a, b⟩ := kv
    simp only [List.map_cons, List.nodup_cons] at hnd
    by_cases ha : a = k
    · simpa [dictSet, ha] using hnd
    · simp only [dictSet, if_neg ha, List.map_cons, List.nodup_cons]
      refine ⟨fun hmem => ?_, ih hnd.2⟩
      rcases (mem_keys_dictSet rest k v a).mp hmem with h | h
      · exact hnd.1 h
      · exact ha h

theorem dictGet_isSome_dictSet (m : List (String × String)) (k v x : String)
    (h : (dictGet m x).isSome = true) :
    (dictGet (dictSet m k v) x).isSome = true := by
  by_cases hx : x = k
  · simp [hx, dictGet_dictSet_self]
  · rwa [dictGet_dictSet_ne m k v x hx]

theorem findPhoneIdx_ok {l : List PhoneDict} {nm : String} {i : Nat}
    (h : findPhoneIdx l nm = .ok i) :
    ∃ hi : i < l.length, macKey (l.get ⟨i, hi⟩) = some nm := by
  induction l generalizing i with
  | nil => simp [findPhoneIdx] at h
  | cons d rest ih =>
    rw [findPhoneIdx] at h
    cases hm : normalizeMac d.mac with
    | none => rw [hm] at h; cases h
    | some mv =>
      rw [hm] at h
      simp only at h
      by_cases hmv : mv = nm
      · rw [if_pos hmv] at h
        injection h with h0
        subst h0
        exact ⟨Nat.succ_pos _, by simp [macKey, hm, hmv]⟩
      · rw [if_neg hmv] at h
        cases hr : findPhoneIdx rest nm with
        | error e => rw [hr] at h; simp [Except.map] at h
        | ok j =>
          rw [hr] at h
          simp only [Except.map] at h
          injection h with hj1
          obtain ⟨hj, hspec⟩ := ih hr
          subst hj1
          exact ⟨Nat.succ_lt_succ hj, hspec⟩

theorem updateSecretPassword_phones (st : RepoState) (e pw : String) :
    (updateSecretPassword st e pw).phones = st.phones := by
  rw [updateSecretPassword]
  split <;> rfl

theorem removeSecretPassword_phones (st : RepoState) (e : String) :
    (removeSecretPassword st e).phones = st.phones := by
  rw [removeSecretPassword]
  split
  · split
    · rfl
    · split <;> rfl
  · rfl

theorem passwordStep_phones (st : RepoState) (cur : PhoneDict) (u : PhoneUpdates) :
    (passwordStep st cur u).1.phones = st.phones := by
  rw [passwordStep]
  cases u.password with
  | none => rfl
  | some pw =>
    dsimp only
    by_cases hc : (st.secretsConfigured && st.secretsFile.isSome) = true
    · rw [if_pos hc]
      exact updateSecretPassword_phones ..
    · rw [if_neg hc]

theorem passwordStep_dict_mac (st : RepoState) (cur : PhoneDict) (u : PhoneUpdates) :
    (passwordStep st cur u).2.mac = cur.mac := by
  rw [passwordStep]
  cases u.password with
  | none => rfl
  | some pw =>
    dsimp only
    by_cases hc : (st.secretsConfigured && st.secretsFile.isSome) = true
    · rw [if_pos hc]
    · rw [if_neg hc]

theorem passwordStep_dict_ext (st : RepoState) (cur : PhoneDict) (u : PhoneUpdates) :
    (passwordStep st cur u).2.extension = cur.extension := by
  rw [passwordStep]
  cases u.password with
  | none => rfl
  | some pw =>
    dsimp only
    by_cases hc : (st.secretsConfigured && st.secretsFile.isSome) = true
    · rw [if_pos hc]
    · rw [if_neg hc]

theorem migrationStep_phones (st : RepoState) (oldExt : String) (u : PhoneUpdates) :
    (migrationStep st oldExt u).phones = st.phones := by
  simp only [migrationStep]
  cases u.extension with
  | none => rfl
  | some e =>
    dsimp only
    by_cases hc : oldExt ≠ e ∧ st.secretsConfigured = true
    · rw [if_pos hc]
      cases dictGet (st.secretsFile.getD []) oldExt with
      | none => rfl
      | some v =>
        dsimp only
        by_cases hp : u.password = none
        · rw [if_pos hp]
        · rw [if_neg hp]
    · rw [if_neg hc]

theorem updatePhoneCommit_phones (st : RepoState) (i : Nat) (cur : PhoneDict)
    (u : PhoneUpdates) :
    (updatePhoneCommit st i cur u).1.phones =
      st.phones.set i (applyFieldUpdates (passwordStep st cur u).2 u) := by
  rw [updatePhoneCommit]
  split <;>
    simp [migrationStep_phones, passwordStep_phones]

theorem updateSecretPassword_config (st : RepoState) (e pw : String) :
    (updateSecretPassword st e pw).secretsConfigured = st.secretsConfigured := by
  rw [updateSecretPassword]
  split <;> rfl

theorem updateSecretPassword_secretsFile (st : RepoState) (e pw : String)
    (hc : st.secretsConfigured = true) :
    (updateSecretPassword st e pw).secretsFile =
      some (dictSet (st.secretsFile.getD []) e pw) := by
  rw [updateSecretPassword, if_pos hc]

theorem addPhoneWrites_phones_secrets {st : RepoState} (p : PhoneEntry)
    (hs : (st.secretsConfigured && st.secretsFile.isSome) = true) :
    (addPhoneWrites st p).phones =
      st.phones ++ [{ phoneToDict p with password := none }] := by
  rw [addPhoneWrites]
  dsimp only
  rw [if_pos hs]

theorem addPhoneWrites_phones_plain {st : RepoState} (p : PhoneEntry)
    (hs : ¬ (st.secretsConfigured && st.secretsFile.isSome) = true) :
    (addPhoneWrites st p).phones = st.phones ++ [phoneToDict p] := by
  rw [addPhoneWrites]
  dsimp only
  rw [if_neg hs]

theorem addPhoneWrites_config (st : RepoState) (p : PhoneEntry) :
    (addPhoneWrites st p).secretsConfigured = st.secretsConfigured := by
  rw [addPhoneWrites]
  dsimp only
  split
  · exact updateSecretPassword_config ..
  · rfl

theorem addPhoneWrites_secretsFile_secrets {st : RepoState} (p : PhoneEntry)
    (hs : (st.secretsConfigured && st.secretsFile.isSome) = true) :
    (addPhoneWrites st p).secretsFile =
      some (dictSet (st.secretsFile.getD []) p.extension p.password) := by
  rw [addPhoneWrites]
  dsimp only
  rw [if_pos hs]
  exact updateSecretPassword_secretsFile _ _ _ ((Bool.and_eq_true _ _).mp hs).1

theorem addPhoneWrites_secretsFile_plain {st : RepoState} (p : PhoneEntry)
    (hs : ¬ (st.secretsConfigured && st.secretsFile.isSome) = true) :
    (addPhoneWrites st p).secretsFile = st.secretsFile := by
  rw [addPhoneWrites]
  dsimp only
  rw [if_neg hs]

theorem loadOk_addPhoneWrites {st : RepoState} {p : PhoneEntry} {nm : String}
    (hload : loadOk st = true) (hm : normalizeMac p.mac = some nm) :
    loadOk (addPhoneWrites st p) = true := by
  rw [loadOk, List.all_eq_true] at hload ⊢
  by_cases hs : (st.secretsConfigured && st.secretsFile.isSome) = true
  · have hconf : st.secretsConfigured = true := ((Bool.and_eq_true _ _).mp hs).1
    have hmap : secretsMapOf (addPhoneWrites st p) =
        dictSet (st.secretsFile.getD []) p.extension p.password := by
      rw [secretsMapOf, addPhoneWrites_config, if_pos hconf,
        addPhoneWrites_secretsFile_secrets p hs, Option.getD_some]
    have hm0 : secretsMapOf st = st.secretsFile.getD [] := by
      rw [secretsMapOf, if_pos hconf]
    rw [addPhoneWrites_phones_secrets p hs]
    intro d hd
    rw [hmap]
    rcases List.mem_append.mp hd with hold | hnew
    · have h0 := hload d hold
      rw [phoneLoadable, Bool.and_eq_true] at h0 ⊢
      refine ⟨h0.1, ?_⟩
      rw [hm0] at h0
      rw [Bool.or_eq_true] at h0 ⊢
      rcases h0.2 with hgl | hpw
      · exact Or.inl (dictGet_isSome_dictSet _ _ _ _ hgl)
      · exact Or.inr hpw
    · rw [List.mem_singleton] at hnew
      subst hnew
      rw [phoneLoadable, Bool.and_eq_true]
      refine ⟨?_, ?_⟩
      · rw [show ({ phoneToDict p with password := none } : PhoneDict).mac = p.mac
          from rfl, hm]
        rfl
      · rw [Bool.or_eq_true]
        refine Or.inl ?_
        rw [show ({ phoneToDict p with password := none } : PhoneDict).extension
          = p.extension from rfl, dictGet_dictSet_self]
        rfl
  · have hmap : secretsMapOf (addPhoneWrites st p) = secretsMapOf st := by
      rw [secretsMapOf, secretsMapOf, addPhoneWrites_config,
        addPhoneWrites_secretsFile_plain p hs]
    rw [addPhoneWrites_phones_plain p hs]
    intro d hd
    rw [hmap]
    rcases List.mem_append.mp hd with hold | hnew
    · exact hload d hold
    · rw [List.mem_singleton] at hnew
      subst hnew
      rw [phoneLoadable, Bool.and_eq_true]
      refine ⟨by rw [show (phoneToDict p).mac = p.mac from rfl, hm]; rfl, ?_⟩
      rw [Bool.or_eq_true]
      exact Or.inr rfl

theorem addPhone_ok {st : RepoState} {p : PhoneEntry}
    (h : (addPhone st p).2 = Except.ok ()) :
    ∃ nm, normalizeMac p.mac = some nm ∧
      (∀ d ∈ st.phones, macKey d ≠ some nm) ∧
      (∀ d ∈ st.phones, d.extension ≠ p.extension) ∧
      ∃ dNew, (addPhone st p).1.phones = st.phones ++ [dNew] ∧
        dNew.mac = p.mac ∧ dNew.extension = p.extension := by
  rw [addPhone] at h ⊢
  by_cases hld : loadOk st = true
  · rw [if_neg (not_not_intro hld)] at h ⊢
    cases hm : normalizeMac p.mac with
    | none => rw [hm] at h; simp at h
    | some nm =>
      rw [hm] at h
      dsimp only at h ⊢
      by_cases h1 : (st.phones.any fun d => normalizeMac d.mac == some nm) = true
      · rw [if_pos h1] at h; simp at h
      · rw [if_neg h1] at h ⊢
        by_cases h2 : (st.phones.any fun d => d.extension == p.extension) = true
        · rw [if_pos h2] at h; simp at h
        · rw [if_neg h2] at h ⊢
          have h1' : ∀ d ∈ st.phones, macKey d ≠ some nm := by
            intro d hd hc
            exact h1 (List.any_eq_true.mpr ⟨d, hd, by simpa [macKey] using hc⟩)
          have h2' : ∀ d ∈ st.phones, d.extension ≠ p.extension := by
            intro d hd hc
            exact h2 (List.any_eq_true.mpr ⟨d, hd, by simpa using hc⟩)
          refine ⟨nm, rfl, h1', h2', ?_⟩
          rw [apply_ite Prod.fst]
          dsimp only
          rw [ite_self]
          by_cases hs : (st.secretsConfigured && st.secretsFile.isSome) = true
          · exact ⟨{ phoneToDict p with password := none },
              addPhoneWrites_phones_secrets p hs, rfl, rfl⟩
          · exact ⟨phoneToDict p, addPhoneWrites_phones_plain p hs, rfl, rfl⟩
  · rw [if_pos hld] at h
    simp at h

theorem updatePhone_ok {st : RepoState} {mac : String} {u : PhoneUpdates}
    (h : (updatePhone st mac u).2 = Except.ok ()) :
    ∃ (nm : String) (i : Nat) (hi : i < st.phones.length),
      normalizeMac mac = some nm ∧
      macKey (st.phones.get ⟨i, hi⟩) = some nm ∧
      (updatePhone st mac u).1.phones =
        st.phones.set i
          (applyFieldUpdates (passwordStep st (st.phones.get ⟨i, hi⟩) u).2 u) ∧
      (∀ e, u.extension = some e → e ≠ (st.phones.get ⟨i, hi⟩).extension →
        ∀ d ∈ st.phones, d.extension = e → macKey d = some nm) := by
  rw [updatePhone] at h ⊢
  cases hnm : normalizeMac mac with
  | none => rw [hnm] at h; simp at h
  | some nm =>
    rw [hnm] at h
    dsimp only at h ⊢
    cases hf : findPhoneIdx st.phones nm with
    | error e => rw [hf] at h; simp at h
    | ok i =>
      rw [hf] at h
      dsimp only at h ⊢
      obtain ⟨hi, hkey⟩ := findPhoneIdx_ok hf
      have hig : st.phones[i]? = some (st.phones.get ⟨i, hi⟩) := by
        simp [List.getElem?_eq_getElem hi]
      rw [hig] at h ⊢
      dsimp only at h ⊢
      cases hue : u.extension with
      | none =>
        dsimp only at h ⊢
        refine ⟨nm, i, hi, rfl, hkey, ?_, ?_⟩
        · rw [updatePhoneCommit_phones]
        · intro e he
          cases he
      | some e =>
        rw [hue] at h
        dsimp only at h ⊢
        by_cases hee : e ≠ (st.phones.get ⟨i, hi⟩).extension
        · rw [if_pos hee] at h ⊢
          by_cases hld : loadOk st = true
          · rw [if_neg (not_not_intro hld)] at h ⊢
            by_cases hany : (st.phones.any
                fun d' => d'.extension == e && !(normalizeMac d'.mac == some nm)) = true
            · rw [if_pos hany] at h; simp at h
            · rw [if_neg hany] at h ⊢
              refine ⟨nm, i, hi, rfl, hkey, ?_, ?_⟩
              · rw [updatePhoneCommit_phones]
              · intro e2 he2 hne2 d hd hde
                injection he2 with he2
                subst he2
                by_contra hcmac
                refine hany (List.any_eq_true.mpr ⟨d, hd, ?_⟩)
                simp only [Bool.and_eq_true, beq_iff_eq, Bool.not_eq_eq_eq_not,
                  Bool.not_true, beq_eq_false_iff_ne]
                exact ⟨hde, by simpa [macKey] using hcmac⟩
          · rw [if_pos hld] at h; simp at h
        · rw [if_neg hee] at h ⊢
          refine ⟨nm, i, hi, rfl, hkey, ?_, ?_⟩
          · rw [updatePhoneCommit_phones]
          · intro e2 he2 hne2 d hd hde
            injection he2 with he2
            subst he2
            exact absurd (not_not.mp hee) hne2

theorem deletePhone_ok_phones {st : RepoState} {mac : String}
    (h : (deletePhone st mac).2 = Except.ok ()) :
    ∃ i, (deletePhone st mac).1.phones = st.phones.eraseIdx i := by
  rw [deletePhone] at h ⊢
  cases hnm : normalizeMac mac with
  | none => rw [hnm] at h; simp at h
  | some nm =>
    rw [hnm] at h
    dsimp only at h ⊢
    cases hf : findPhoneIdx st.phones nm with
    | error e => rw [hf] at h; simp at h
    | ok i =>
      rw [hf] at h
      dsimp only at h ⊢
      obtain ⟨hi, _⟩ := findPhoneIdx_ok hf
      have hig : st.phones[i]? = some (st.phones.get ⟨i, hi⟩) := by
        simp [List.getElem?_eq_getElem hi]
      rw [hig] at h ⊢
      dsimp only at h ⊢
      refine ⟨i, ?_⟩
      rw [apply_ite Prod.fst]
      dsimp only
      rw [ite_self]
      split
      · rw [removeSecretPassword_phones]
      · rfl

theorem invariantB_iff (st : RepoState) :
    invariantB st = true ↔
      st.phones.Pairwise (fun a b => macKey a ≠ macKey b) ∧
      st.phones.Pairwise (fun a b => a.extension ≠ b.extension) := by
  rw [invariantB, Bool.and_eq_true, macUniqueB_iff, extUniqueB_iff]

theorem invariantB_addPhone {st : RepoState} {p : PhoneEntry}
    (hinv : invariantB st = true) (h : (addPhone st p).2 = Except.ok ()) :
    invariantB (addPhone st p).1 = true := by
  obtain ⟨nm, hnm, hmac, hext, dNew, hphones, hdm, hde⟩ := addPhone_ok h
  rw [invariantB_iff] at hinv ⊢
  rw [hphones]
  constructor
  · rw [List.pairwise_append]
    refine ⟨hinv.1, List.pairwise_singleton .., fun a ha b hb => ?_⟩
    rw [List.mem_singleton] at hb
    subst hb
    intro hc
    exact hmac a ha (hc.trans (by rw [macKey, hdm, hnm]))
  · rw [List.pairwise_append]
    refine ⟨hinv.2, List.pairwise_singleton .., fun a ha b hb => ?_⟩
    rw [List.mem_singleton] at hb
    subst hb
    intro hc
    exact hext a ha (hc.trans hde)

theorem invariantB_updatePhone {st : RepoState} {mac : String} {u : PhoneUpdates}
    (hinv : invariantB st = true) (hsafe : safeOp st (.update mac u) = true)
    (h : (updatePhone st mac u).2 = Except.ok ()) :
    invariantB (updatePhone st mac u).1 = true := by
  obtain ⟨nm, i, hi, hnm, hkey, hphones, hextOk⟩ := updatePhone_ok h
  rw [invariantB_iff] at hinv ⊢
  rw [hphones]
  have hd2mac : (applyFieldUpdates (passwordStep st (st.phones.get ⟨i, hi⟩) u).2 u).mac
      = u.mac.getD (st.phones.get ⟨i, hi⟩).mac := by
    simp [applyFieldUpdates, passwordStep_dict_mac]
  have hd2ext : (applyFieldUpdates (passwordStep st (st.phones.get ⟨i, hi⟩) u).2 u).extension
      = u.extension.getD (st.phones.get ⟨i, hi⟩).extension := by
    simp [applyFieldUpdates, passwordStep_dict_ext]
  have hsymMac : ∀ a b : PhoneDict, macKey a ≠ macKey b → macKey b ≠ macKey a :=
    fun a b hab hc => hab hc.symm
  have hsymExt : ∀ a b : PhoneDict,
      a.extension ≠ b.extension → b.extension ≠ a.extension :=
    fun a b hab hc => hab hc.symm
  constructor
  · refine pairwise_set_of hsymMac hinv.1 i _ ?_
    intro j hj hji
    have hji' : macKey (st.phones.get ⟨i, hi⟩) ≠ macKey (st.phones.get ⟨j, hj⟩) :=
      pairwise_get_of_ne hsymMac hinv.1 hi hj (fun hc => hji hc.symm)
    cases hum : u.mac with
    | none =>
      have hv : macKey (applyFieldUpdates (passwordStep st (st.phones.get ⟨i, hi⟩) u).2 u)
          = some nm := by
        rw [macKey, hd2mac, hum, Option.getD_none, ← macKey, hkey]
      rw [hv, ← hkey]
      exact hji'
    | some newMac =>
      have hv : macKey (applyFieldUpdates (passwordStep st (st.phones.get ⟨i, hi⟩) u).2 u)
          = normalizeMac newMac := by
        rw [macKey, hd2mac, hum, Option.getD_some]
      rw [hv]
      intro hc
      rw [safeOp, hum] at hsafe
      dsimp only at hsafe
      rw [List.all_eq_true] at hsafe
      have hs := hsafe (st.phones.get ⟨j, hj⟩) (List.get_mem ..)
      rw [Bool.or_eq_true, Bool.not_eq_eq_eq_not, Bool.not_true,
        beq_eq_false_iff_ne, beq_iff_eq] at hs
      rcases hs with hs | hs
      · exact hs hc.symm
      · rw [hnm, ← hkey] at hs
        exact hji' hs.symm
  · refine pairwise_set_of hsymExt hinv.2 i _ ?_
    intro j hj hji
    have hjiE : (st.phones.get ⟨i, hi⟩).extension ≠ (st.phones.get ⟨j, hj⟩).extension :=
      pairwise_get_of_ne hsymExt hinv.2 hi hj (fun hc => hji hc.symm)
    cases hue : u.extension with
    | none =>
      rw [hd2ext, hue, Option.getD_none]
      exact hjiE
    | some e =>
      rw [hd2ext, hue, Option.getD_some]
      by_cases hee : e = (st.phones.get ⟨i, hi⟩).extension
      · rw [hee]
        exact hjiE
      · intro hc
        have hm := hextOk e hue (fun hc2 => hee hc2) (st.phones.get ⟨j, hj⟩)
          (List.get_mem ..) hc.symm
        rw [← hkey] at hm
        exact pairwise_get_of_ne hsymMac hinv.1 hi hj (fun hc2 => hji hc2.symm) hm.symm

theorem invariantB_deletePhone {st : RepoState} {mac : String}
    (hinv : invariantB st = true) (h : (deletePhone st mac).2 = Except.ok ()) :
    invariantB (deletePhone st mac).1 = true := by
  obtain ⟨i, hphones⟩ := deletePhone_ok_phones h
  rw [invariantB_iff] at hinv ⊢
  rw [hphones]
  exact ⟨hinv.1.sublist (List.eraseIdx_sublist ..),
    hinv.2.sublist (List.eraseIdx_sublist ..)⟩

theorem invariantB_applyOp {st : RepoState} {op : RepoOp}
    (hinv : invariantB st = true) (hsafe : safeOp st op = true)
    (h : (applyOp st op).2 = Except.ok ()) :
    invariantB (applyOp st op).1 = true := by
  cases op with
  | add p => exact invariantB_addPhone hinv h
  | update mac u => exact invariantB_updatePhone hinv hsafe h
  | del mac => exact invariantB_deletePhone hinv h

/-! ## Claim C1 -/

/-- Claim C1, counterexample: the claim as stated is false.  Starting from a
two-phone inventory satisfying both uniqueness invariants, the single
mutation `updateDevice("aa:bb:cc:dd:ee:ff", {mac: "112233445566"})` succeeds,
yet afterwards two device records share the normalized hardware identifier
`112233445566`: `update_phone` never re-validates identifier uniqueness. -/
theorem c1_counterexample :
    invariantB twoPhoneRepo = true ∧
    (runOps twoPhoneRepo
      [RepoOp.update "aa:bb:cc:dd:ee:ff" { mac := some "112233445566" }]).2 = true ∧
    macUniqueB (runOps twoPhoneRepo
      [RepoOp.update "aa:bb:cc:dd:ee:ff" { mac := some "112233445566" }]).1.phones
      = false := by
  refine ⟨by decide, by decide, by decide⟩

/-- Claim C1 (amended): for every sequence of repository mutations that all
succeed, starting from an inventory satisfying the uniqueness invariants,
and in which no `updateDevice` sets the identifier field to a value whose
normalized form collides with a record other than the one being updated
(`updateDevice` does not re-validate identifier uniqueness), the resulting
inventory has no two records with the same normalized hardware identifier
and no two records with the same extension. -/
theorem c1_uniqueness_preserved (st : RepoState) (ops : List RepoOp)
    (hinv : invariantB st = true) (hsafe : safeOps st ops = true)
    (hok : (runOps st ops).2 = true) :
    invariantB (runOps st ops).1 = true := by
  induction ops generalizing st with
  | nil => simpa [runOps] using hinv
  | cons op rest ih =>
    rw [runOps] at hok ⊢
    rw [safeOps, Bool.and_eq_true] at hsafe
    cases hap : applyOp st op with
    | mk st' r =>
      cases r with
      | ok v =>
        cases v
        rw [hap] at hok
        dsimp only at hok ⊢
        have hinv' : invariantB st' = true := by
          have h2 : (applyOp st op).2 = Except.ok () := by rw [hap]
          have := invariantB_applyOp hinv hsafe.1 h2
          rwa [hap] at this
        have hsafe' : safeOps st' rest = true := by
          have := hsafe.2
          rwa [hap] at this
        exact ih st' hinv' hsafe' hok
      | error e =>
        rw [hap] at hok
        dsimp only at hok
        cases hok

/-- Claim C1, witness: a concrete four-mutation sequence (two adds, an
extension update, a delete) from the empty inventory, run through the
amended theorem. -/
theorem c1_uniqueness_preserved_witness :
    invariantB (runOps emptyRepo sampleOps).1 = true :=
  c1_uniqueness_preserved emptyRepo sampleOps (by decide) (by decide) (by decide)

/-! ## Claim C3 -/

/-- Claim C3: on a loadable inventory satisfying the uniqueness invariants,
`addDevice(record)` fails with the duplicate-identifier error when a record
with the same normalized identifier exists, else with the
duplicate-extension error when any device already has the record's
extension, else succeeds and appends the record.  On either validation
failure the returned state is exactly the input state (no backup or write
cycle: `writeEvents` unchanged, no file touched) and the inventory still
holds exactly one record with the contested identifier or extension. -/
theorem c3_add_validation (st : RepoState) (p : PhoneEntry) (nm : String)
    (hinv : invariantB st = true) (hload : loadOk st = true)
    (hmac : normalizeMac p.mac = some nm) :
    ((∃ d ∈ st.phones, macKey d = some nm) →
      addPhone st p = (st, Except.error RepoError.duplicateMac) ∧
      st.phones.countP (fun d => macKey d == some nm) = 1) ∧
    ((∀ d ∈ st.phones, macKey d ≠ some nm) →
      (∃ d ∈ st.phones, d.extension = p.extension) →
      addPhone st p = (st, Except.error RepoError.duplicateExt) ∧
      st.phones.countP (fun d => d.extension == p.extension) = 1) ∧
    ((∀ d ∈ st.phones, macKey d ≠ some nm) →
      (∀ d ∈ st.phones, d.extension ≠ p.extension) →
      (addPhone st p).2 = Except.ok () ∧
      ∃ dNew, (addPhone st p).1.phones = st.phones ++ [dNew] ∧
        dNew.mac = p.mac ∧ dNew.extension = p.extension) := by
  have hiff := (invariantB_iff st).mp hinv
  refine ⟨?_, ?_, ?_⟩
  · rintro ⟨d, hd, hk⟩
    have hany : (st.phones.any fun x => normalizeMac x.mac == some nm) = true :=
      List.any_eq_true.mpr ⟨d, hd, by simpa [macKey] using hk⟩
    refine ⟨?_, countP_eq_one_of_key macKey hiff.1 hd hk⟩
    rw [addPhone, if_neg (not_not_intro hload), hmac]
    dsimp only
    rw [if_pos hany]
  · rintro hno ⟨d, hd, hk⟩
    have hany1 : ¬ (st.phones.any fun x => normalizeMac x.mac == some nm) = true := by
      intro hc
      obtain ⟨d', hd', hc2⟩ := List.any_eq_true.mp hc
      exact hno d' hd' (by simpa [macKey] using hc2)
    have hany2 : (st.phones.any fun x => x.extension == p.extension) = true :=
      List.any_eq_true.mpr ⟨d, hd, by simpa using hk⟩
    refine ⟨?_, countP_eq_one_of_key (fun x : PhoneDict => x.extension) hiff.2 hd hk⟩
    rw [addPhone, if_neg (not_not_intro hload), hmac]
    dsimp only
    rw [if_neg hany1, if_pos hany2]
  · intro hno hnoe
    have hany1 : ¬ (st.phones.any fun x => normalizeMac x.mac == some nm) = true := by
      intro hc
      obtain ⟨d', hd', hc2⟩ := List.any_eq_true.mp hc
      exact hno d' hd' (by simpa [macKey] using hc2)
    have hany2 : ¬ (st.phones.any fun x => x.extension == p.extension) = true := by
      intro hc
      obtain ⟨d', hd', hc2⟩ := List.any_eq_true.mp hc
      exact hnoe d' hd' (by simpa using hc2)
    have hwr := loadOk_addPhoneWrites hload hmac
    constructor
    · rw [addPhone, if_neg (not_not_intro hload), hmac]
      dsimp only
      rw [if_neg hany1, if_neg hany2, if_pos hwr]
    · rw [addPhone, if_neg (not_not_intro hload), hmac]
      dsimp only
      rw [if_neg hany1, if_neg hany2]
      rw [apply_ite Prod.fst]
      dsimp only
      rw [ite_self]
      by_cases hs : (st.secretsConfigured && st.secretsFile.isSome) = true
      · exact ⟨_, addPhoneWrites_phones_secrets p hs, rfl, rfl⟩
      · exact ⟨_, addPhoneWrites_phones_plain p hs, rfl, rfl⟩

/-- Claim C3, witness: adding a phone whose identifier duplicates an
existing record fails with the duplicate-identifier error, the state is
exactly the pre-call state, and the inventory holds exactly one record with
that identifier. -/
theorem c3_add_validation_witness :
    addPhone twoPhoneRepo
        { mac := "aabbccddeeff", model := "yealink_t27g", extension := "300"
          display_name := "Dup", password := "x" }
      = (twoPhoneRepo, Except.error RepoError.duplicateMac) ∧
    twoPhoneRepo.phones.countP (fun d => macKey d == some "aabbccddeeff") = 1 :=
  (c3_add_validation twoPhoneRepo
      { mac := "aabbccddeeff", model := "yealink_t27g", extension := "300"
        display_name := "Dup", password := "x" }
      "aabbccddeeff" (by decide) (by decide) (by decide)).1
    ⟨sampleDictA, by decide, by decide⟩

/-! ## Claim C2 -/

/-- Claim C2: for an atomic-write call whose target exists, if the
serialize-to-temp, re-parse, or rename step fails, the surfaced error is a
`PersistenceError` carrying the failing step as its cause and the target's
content after the call equals its pre-call content; when no step fails the
target holds exactly the fully serialized new document. -/
theorem c2_atomic_write {α : Type} (fails : WStep → Bool) (dumpFn : α → String)
    (fs : AtomicFile) (data : α) (c : String)
    (hpre : fs.target = some c) (hb : fails .backup = false) :
    ((fails .dump = true ∨ fails .parse = true ∨ fails .swap = true) →
      (atomicWriteYaml fails dumpFn fs data).1.target = some c ∧
      (atomicWriteYaml fails dumpFn fs data).2 =
        .persistenceError (firstFailing fails) ∧
      fails (firstFailing fails) = true) ∧
    (fails .dump = false → fails .parse = false → fails .swap = false →
      atomicWriteYaml fails dumpFn fs data = (⟨some (dumpFn data)⟩, .ok)) := by
  constructor
  · intro hf
    by_cases hd : fails .dump = true
    · simp [atomicWriteYaml, rollbackCleanup, firstFailing, hpre, hb, hd]
    · rw [Bool.not_eq_true] at hd
      by_cases hp : fails .parse = true
      · simp [atomicWriteYaml, rollbackCleanup, firstFailing, hpre, hb, hd, hp]
      · rw [Bool.not_eq_true] at hp
        have hsw : fails .swap = true := by
          rcases hf with h | h | h
          · rw [hd] at h; cases h
          · rw [hp] at h; cases h
          · exact h
        simp [atomicWriteYaml, rollbackCleanup, firstFailing, hpre, hb, hd, hp, hsw]
  · intro hd hp hsw
    simp [atomicWriteYaml, rollbackCleanup, hpre, hb, hd, hp, hsw]

/-- Claim C2, witness: with a parse-step failure oracle the target keeps its
old content and the call reports a `PersistenceError` caused by the parse
step; with a never-failing oracle the target holds the new document. -/
theorem c2_atomic_write_witness :
    (atomicWriteYaml (fun s => s == WStep.parse) id ⟨some "old"⟩ "new").1.target
      = some "old" ∧
    (atomicWriteYaml (fun s => s == WStep.parse) id ⟨some "old"⟩ "new").2 =
      WResult.persistenceError WStep.parse ∧
    atomicWriteYaml (fun _ => false) id ⟨some "old"⟩ "new" =
      (⟨some "new"⟩, WResult.ok) := by
  refine ⟨?_, ?_, ?_⟩
  · exact ((c2_atomic_write (fun s => s == WStep.parse) id ⟨some "old"⟩ "new" "old"
      rfl rfl).1 (Or.inr (Or.inl rfl))).1
  · have h := ((c2_atomic_write (fun s => s == WStep.parse) id ⟨some "old"⟩ "new" "old"
      rfl rfl).1 (Or.inr (Or.inl rfl))).2.1
    simpa [firstFailing] using h
  · exact (c2_atomic_write (fun _ => false) id ⟨some "old"⟩ "new" "old"
      rfl rfl).2 rfl rfl rfl

/-! ## Claims C4 and C9 -/

/-- Claim C4, counterexample: the claim as stated is false.  A record whose
server-address override is present but empty has the field set, yet
`resolve` returns the global default rather than the override, because the
merge uses Python `or` truthiness. -/
theorem c4_counterexample :
    ({ mac := "aabbccddeeff", model := "yealink_t23g", extension := "100"
       display_name := "Alice", password := "pw1"
       pbx_server := some "" : PhoneEntry }).pbx_server = some "" ∧
    (getEffectiveSettings {}
      { mac := "aabbccddeeff", model := "yealink_t23g", extension := "100"
        display_name := "Alice", password := "pw1"
        pbx_server := some "" }).pbx_server = "pbx.example.com" ∧
    ("pbx.example.com" : String) ≠ "" := by
  refine ⟨rfl, rfl, by decide⟩

/-- Claim C4 (amended): `resolve` returns, for server address, port,
transport and codec list, the record's override when it is set to a truthy
value (non-empty string, non-zero port, non-empty list), and the global
default when the override is unset or set to a falsy value; time-sync server
and timezone always come from the globals; extension, display name,
credential, identifier and model come from the record unchanged; the label
falls back to the display name when unset or empty; and for a truthy-set
field the resolved value does not depend on the globals. -/
theorem c4_effective_settings (g g2 : GlobalSettings) (p : PhoneEntry) :
    (∀ s, p.pbx_server = some s → s ≠ "" →
      (getEffectiveSettings g p).pbx_server = s) ∧
    ((p.pbx_server = none ∨ p.pbx_server = some "") →
      (getEffectiveSettings g p).pbx_server = g.pbx_server) ∧
    (∀ n, p.pbx_port = some n → n ≠ 0 → (getEffectiveSettings g p).pbx_port = n) ∧
    ((p.pbx_port = none ∨ p.pbx_port = some 0) →
      (getEffectiveSettings g p).pbx_port = g.pbx_port) ∧
    (∀ s, p.transport = some s → s ≠ "" →
      (getEffectiveSettings g p).transport = s) ∧
    ((p.transport = none ∨ p.transport = some "") →
      (getEffectiveSettings g p).transport = g.transport) ∧
    (∀ l, p.codecs = some l → l ≠ [] → (getEffectiveSettings g p).codecs = l) ∧
    ((p.codecs = none ∨ p.codecs = some []) →
      (getEffectiveSettings g p).codecs = g.codecs) ∧
    (getEffectiveSettings g p).ntp_server = g.ntp_server ∧
    (getEffectiveSettings g p).timezone = g.timezone ∧
    (getEffectiveSettings g p).extension = p.extension ∧
    (getEffectiveSettings g p).display_name = p.display_name ∧
    (getEffectiveSettings g p).password = p.password ∧
    (getEffectiveSettings g p).mac = p.mac ∧
    (getEffectiveSettings g p).model = p.model ∧
    (∀ s, p.label = some s → s ≠ "" → (getEffectiveSettings g p).label = s) ∧
    ((p.label = none ∨ p.label = some "") →
      (getEffectiveSettings g p).label = p.display_name) ∧
    (∀ s, p.pbx_server = some s → s ≠ "" →
      (getEffectiveSettings g p).pbx_server = (getEffectiveSettings g2 p).pbx_server) := by
  refine ⟨?_, ?_, ?_, ?_, ?_, ?_, ?_, ?_, rfl, rfl, rfl, rfl, rfl, rfl, rfl,
    ?_, ?_, ?_⟩
  · intro s hs hne
    simp [getEffectiveSettings, pyOrStr, hs, hne]
  · rintro (hs | hs) <;> simp [getEffectiveSettings, pyOrStr, hs]
  · intro n hn hne
    simp [getEffectiveSettings, pyOrInt, hn, hne]
  · rintro (hn | hn) <;> simp [getEffectiveSettings, pyOrInt, hn]
  · intro s hs hne
    simp [getEffectiveSettings, pyOrStr, hs, hne]
  · rintro (hs | hs) <;> simp [getEffectiveSettings, pyOrStr, hs]
  · intro l hl hne
    simp [getEffectiveSettings, pyOrList, hl, hne]
  · rintro (hl | hl) <;> simp [getEffectiveSettings, pyOrList, hl]
  · intro s hs hne
    simp [getEffectiveSettings, PhoneEntry.lineLabel, pyOrStr, hs, hne]
  · rintro (hs | hs) <;>
      simp [getEffectiveSettings, PhoneEntry.lineLabel, pyOrStr, hs]
  · intro s hs hne
    simp [getEffectiveSettings, pyOrStr, hs, hne]

/-- Claim C4, witness: a record with a truthy server override resolves to the
override, a record without one resolves to the global default. -/
theorem c4_effective_settings_witness :
    (getEffectiveSettings {}
      { mac := "aabbccddeeff", model := "m", extension := "100"
        display_name := "A", password := "p"
        pbx_server := some "10.0.0.1" }).pbx_server = "10.0.0.1" ∧
    (getEffectiveSettings {}
      { mac := "aabbccddeeff", model := "m", extension := "100"
        display_name := "A", password := "p" }).pbx_server = "pbx.example.com" := by
  constructor
  · exact (c4_effective_settings {} {}
      { mac := "aabbccddeeff", model := "m", extension := "100"
        display_name := "A", password := "p"
        pbx_server := some "10.0.0.1" }).1 "10.0.0.1" rfl (by decide)
  · exact (c4_effective_settings {} {}
      { mac := "aabbccddeeff", model := "m", extension := "100"
        display_name := "A", password := "p" }).2.1 (Or.inl rfl)

/-- Claim C9: in the effective-settings merge an override that is present
but falsy is treated as unset: an empty codec-list override, a zero port
override, or an empty server-address override each resolve to the
corresponding global default. -/
theorem c9_falsy_overrides (g : GlobalSettings) (p : PhoneEntry) :
    (p.codecs = some [] → (getEffectiveSettings g p).codecs = g.codecs) ∧
    (p.pbx_port = some 0 → (getEffectiveSettings g p).pbx_port = g.pbx_port) ∧
    (p.pbx_server = some "" →
      (getEffectiveSettings g p).pbx_server = g.pbx_server) := by
  refine ⟨fun hs => ?_, fun hs => ?_, fun hs => ?_⟩ <;>
    simp [getEffectiveSettings, pyOrList, pyOrInt, pyOrStr, hs]

/-- Claim C9, witness: a record with all three falsy overrides resolves all
three fields to the global defaults. -/
theorem c9_falsy_overrides_witness :
    (getEffectiveSettings {}
      { mac := "aabbccddeeff", model := "m", extension := "1"
        display_name := "A", password := "p", pbx_server := some ""
        pbx_port := some 0, codecs := some [] }).codecs = ["PCMU", "PCMA", "G722"] ∧
    (getEffectiveSettings {}
      { mac := "aabbccddeeff", model := "m", extension := "1"
        display_name := "A", password := "p", pbx_server := some ""
        pbx_port := some 0, codecs := some [] }).pbx_port = 5060 ∧
    (getEffectiveSettings {}
      { mac := "aabbccddeeff", model := "m", extension := "1"
        display_name := "A", password := "p", pbx_server := some ""
        pbx_port := some 0, codecs := some [] }).pbx_server = "pbx.example.com" :=
  ⟨(c9_falsy_overrides {}
      { mac := "aabbccddeeff", model := "m", extension := "1"
        display_name := "A", password := "p", pbx_server := some ""
        pbx_port := some 0, codecs := some [] }).1 rfl,
   (c9_falsy_overrides {}
      { mac := "aabbccddeeff", model := "m", extension := "1"
        display_name := "A", password := "p", pbx_server := some ""
        pbx_port := some 0, codecs := some [] }).2.1 rfl,
   (c9_falsy_overrides {}
      { mac := "aabbccddeeff", model := "m", extension := "1"
        display_name := "A", password := "p", pbx_server := some ""
        pbx_port := some 0, codecs := some [] }).2.2 rfl⟩

/-! ## Claim C7 -/

/-- Claim C7, code bug: `normalize_mac` is documented to return a
12-character lowercase hex string and to raise otherwise, but Python's
`re.match(r"^[0-9a-f]{12}$", s)` also matches just before a trailing
newline, so on the input "001565123456\n." (the newline survives `strip`
because a period follows it, and the period is then removed as a separator)
the function returns the 13-character string "001565123456\n" instead of
raising the invalid-identifier error. -/
theorem c7_normalize_newline_bug :
    normalizeMac "001565123456\n." = some "001565123456\n" ∧
    ¬ (("001565123456\n" : String).length = 12) := by
  refine ⟨by decide, by decide⟩

/-! ## Claim C8 -/

theorem findVendor_none_iff (oui : String) (omap : List (String × List String)) :
    findVendor oui omap = none ↔
      ∀ vp ∈ omap, ∀ pre ∈ vp.2, normPfx pre ≠ oui := by
  induction omap with
  | nil => simp [findVendor]
  | cons vp rest ih =>
    obtain ⟨vendor, prefixes⟩ := vp
    rw [findVendor]
    by_cases hc : oui ∈ prefixes.map normPfx
    · rw [if_pos hc]
      obtain ⟨pre, hpre, heq⟩ := List.mem_map.mp hc
      constructor
      · intro h
        cases h
      · intro hall
        exact absurd heq (hall (vendor, prefixes) (List.mem_cons_self ..) pre hpre)
    · rw [if_neg hc]
      rw [ih]
      constructor
      · intro hall vp2 hvp2 pre hpre heq
        rcases List.mem_cons.mp hvp2 with rfl | hvp2
        · exact hc (List.mem_map.mpr ⟨pre, hpre, heq⟩)
        · exact hall vp2 hvp2 pre hpre heq
      · intro hall vp2 hvp2 pre hpre heq
        exact hall vp2 (List.mem_cons_of_mem _ hvp2) pre hpre heq

theorem findVendor_some (oui : String) (omap : List (String × List String))
    (v : String) (h : findVendor oui omap = some v) :
    ∃ vp ∈ omap, v = pyLower vp.1 ∧ ∃ pre ∈ vp.2, normPfx pre = oui := by
  induction omap with
  | nil => simp [findVendor] at h
  | cons vp rest ih =>
    obtain ⟨vendor, prefixes⟩ := vp
    rw [findVendor] at h
    by_cases hc : oui ∈ prefixes.map normPfx
    · rw [if_pos hc] at h
      injection h with h
      obtain ⟨pre, hpre, heq⟩ := List.mem_map.mp hc
      exact ⟨(vendor, prefixes), List.mem_cons_self .., h.symm, pre, hpre, heq⟩
    · rw [if_neg hc] at h
      obtain ⟨vp2, hvp2, hv, hpre⟩ := ih h
      exact ⟨vp2, List.mem_cons_of_mem _ hvp2, hv, hpre⟩

/-- Claim C8, counterexample: the claim as stated is false.  A table prefix
written with period separators is not normalized (only ":" and "-" are
stripped before comparison), so it never matches the OUI; and on a match the
vendor name is returned lowercased rather than as stored in the table. -/
theorem c8_counterexample :
    detectVendor "001565123456" [("yealink", ["00.15.65"])] = some none ∧
    detectVendor "001565123456" [("Yealink", ["00:15:65"])] = some (some "yealink") ∧
    ("yealink" : String) ≠ "Yealink" := by
  refine ⟨by decide, by decide, by decide⟩

/-- Claim C8 (amended): for a valid identifier, `vendorOf` takes the first 6
canonical hex characters uppercased (the OUI) and compares them against each
table prefix normalized by uppercasing and stripping colon and hyphen
separators only (periods are not stripped); it returns none exactly when no
prefix of any vendor matches, returns the lowercased name of a vendor one of
whose normalized prefixes equals the OUI, and returns some vendor whenever a
normalized prefix matches. -/
theorem c8_detect_vendor (mac : String) (omap : List (String × List String))
    (oui : String) (h : getMacOui mac = some oui) :
    (detectVendor mac omap = some none ↔
      ∀ vp ∈ omap, ∀ pre ∈ vp.2, normPfx pre ≠ oui) ∧
    (∀ v, detectVendor mac omap = some (some v) →
      ∃ vp ∈ omap, v = pyLower vp.1 ∧ ∃ pre ∈ vp.2, normPfx pre = oui) ∧
    ((∃ vp ∈ omap, ∃ pre ∈ vp.2, normPfx pre = oui) →
      ∃ v, detectVendor mac omap = some (some v)) := by
  have hred : detectVendor mac omap = some (findVendor oui omap) := by
    rw [detectVendor, h]
    rfl
  refine ⟨?_, ?_, ?_⟩
  · rw [hred]
    constructor
    · intro hnone
      injection hnone with hnone
      exact (findVendor_none_iff oui omap).mp hnone
    · intro hall
      rw [(findVendor_none_iff oui omap).mpr hall]
  · intro v hv
    rw [hred] at hv
    injection hv with hv
    exact findVendor_some oui omap v hv
  · rintro ⟨vp, hvp, pre, hpre, heq⟩
    cases hf : findVendor oui omap with
    | none => exact absurd heq ((findVendor_none_iff oui omap).mp hf vp hvp pre hpre)
    | some v =>
      refine ⟨v, ?_⟩
      rw [hred, hf]

/-- Claim C8, witness: scanning a two-vendor table finds the vendor whose
normalized colon-separated prefix equals the OUI `001565`, and a table with
no matching prefix yields none. -/
theorem c8_detect_vendor_witness :
    detectVendor "00:15:65:12:34:56" [("Fanvil", ["0C:38:3E"])] = some none ∧
    ∃ v, detectVendor "00:15:65:12:34:56"
      [("Fanvil", ["0C:38:3E"]), ("Yealink", ["00:15:65"])] = some (some v) := by
  constructor
  · exact (c8_detect_vendor "00:15:65:12:34:56" [("Fanvil", ["0C:38:3E"])]
      "001565" (by decide)).1.mpr (by decide)
  · exact (c8_detect_vendor "00:15:65:12:34:56"
      [("Fanvil", ["0C:38:3E"]), ("Yealink", ["00:15:65"])] "001565" (by decide)).2.2
      ⟨("Yealink", ["00:15:65"]), by decide, "00:15:65", by decide, by decide⟩

/-! ## Claims C5, C6 and C10 -/

theorem passwordStep_none (st : RepoState) (cur : PhoneDict) (u : PhoneUpdates)
    (h : u.password = none) : passwordStep st cur u = (st, cur) := by
  rw [passwordStep, h]

theorem passwordStep_secret (st : RepoState) (cur : PhoneDict) (u : PhoneUpdates)
    (pw : String) (hupw : u.password = some pw)
    (hs : (st.secretsConfigured && st.secretsFile.isSome) = true) :
    passwordStep st cur u =
      (updateSecretPassword st (u.extension.getD cur.extension) pw, cur) := by
  rw [passwordStep, hupw]
  dsimp only
  rw [if_pos hs]

theorem migrationStep_migrates (st : RepoState) (oldExt : String)
    (u : PhoneUpdates) (e2 v : String) (m : List (String × String))
    (hconf : st.secretsConfigured = true) (hfile : st.secretsFile = some m)
    (hue : u.extension = some e2) (hne : oldExt ≠ e2) (hupw : u.password = none)
    (hv : dictGet m oldExt = some v) :
    migrationStep st oldExt u =
      { st with secretsFile := some (dictDel (dictSet m e2 v) oldExt)
                writeEvents := st.writeEvents ++ [FileId.secrets] } := by
  rw [migrationStep, hue]
  dsimp only
  rw [if_pos ⟨hne, hconf⟩, hfile, Option.getD_some, hv]
  dsimp only
  rw [if_pos hupw]

theorem migrationStep_password_present (st : RepoState) (oldExt : String)
    (u : PhoneUpdates) (pw : String) (hupw : u.password = some pw) :
    migrationStep st oldExt u = st := by
  rw [migrationStep]
  cases hue : u.extension with
  | none => rfl
  | some e =>
    dsimp only
    by_cases hc : oldExt ≠ e ∧ st.secretsConfigured = true
    · rw [if_pos hc]
      cases dictGet (st.secretsFile.getD []) oldExt with
      | none => rfl
      | some v =>
        dsimp only
        rw [if_neg (by rw [hupw]; exact fun hcon => Option.noConfusion hcon)]
    · rw [if_neg hc]

theorem updatePhoneCommit_secrets_migration (st : RepoState) (i : Nat)
    (cur : PhoneDict) (u : PhoneUpdates) (e1 e2 v : String)
    (m : List (String × String))
    (hconf : st.secretsConfigured = true) (hfile : st.secretsFile = some m)
    (he1 : cur.extension = e1) (hue : u.extension = some e2)
    (hupw : u.password = none) (hne : e1 ≠ e2) (hv : dictGet m e1 = some v) :
    (updatePhoneCommit st i cur u).1.secretsFile =
      some (dictDel (dictSet m e2 v) e1) := by
  rw [updatePhoneCommit]
  dsimp only
  rw [apply_ite Prod.fst]
  dsimp only
  rw [ite_self]
  rw [passwordStep_none st cur u hupw]
  dsimp only
  rw [he1]
  have hmig := migrationStep_migrates
    { phones := st.phones.set i (applyFieldUpdates cur u)
      secretsConfigured := st.secretsConfigured
      secretsFile := st.secretsFile
      writeEvents := st.writeEvents ++ [FileId.phones] }
    e1 u e2 v m hconf hfile hue hne hupw hv
  rw [hmig]

theorem updatePhoneCommit_secrets_password (st : RepoState) (i : Nat)
    (cur : PhoneDict) (u : PhoneUpdates) (e2 pw : String)
    (m : List (String × String))
    (hconf : st.secretsConfigured = true) (hfile : st.secretsFile = some m)
    (hue : u.extension = some e2) (hupw : u.password = some pw) :
    (updatePhoneCommit st i cur u).1.secretsFile = some (dictSet m e2 pw) := by
  have hs : (st.secretsConfigured && st.secretsFile.isSome) = true := by
    rw [hconf, hfile]
    rfl
  rw [updatePhoneCommit]
  dsimp only
  rw [apply_ite Prod.fst]
  dsimp only
  rw [ite_self]
  rw [migrationStep_password_present _ _ u pw hupw]
  rw [passwordStep_secret st cur u pw hupw hs]
  dsimp only
  rw [updateSecretPassword_secretsFile _ _ _ hconf, hfile, hue]
  rfl

theorem updatePhone_eq_commit {st : RepoState} {mac : String} {u : PhoneUpdates}
    (h : (updatePhone st mac u).2 = Except.ok ()) :
    ∃ (nm : String) (i : Nat) (hi : i < st.phones.length),
      normalizeMac mac = some nm ∧ findPhoneIdx st.phones nm = Except.ok i ∧
      (updatePhone st mac u).1 =
        (updatePhoneCommit st i (st.phones.get ⟨i, hi⟩) u).1 := by
  rw [updatePhone] at h ⊢
  cases hnm : normalizeMac mac with
  | none => rw [hnm] at h; simp at h
  | some nm =>
    rw [hnm] at h
    dsimp only at h ⊢
    cases hf : findPhoneIdx st.phones nm with
    | error e => rw [hf] at h; simp at h
    | ok i =>
      rw [hf] at h
      dsimp only at h ⊢
      obtain ⟨hi, hkey⟩ := findPhoneIdx_ok hf
      have hig : st.phones[i]? = some (st.phones.get ⟨i, hi⟩) := by
        simp [List.getElem?_eq_getElem hi]
      rw [hig] at h ⊢
      dsimp only at h ⊢
      refine ⟨nm, i, hi, rfl, hf, ?_⟩
      cases hue : u.extension with
      | none => rfl
      | some e =>
        rw [hue] at h
        dsimp only at h ⊢
        by_cases hee : e ≠ (st.phones.get ⟨i, hi⟩).extension
        · rw [if_pos hee] at h ⊢
          by_cases hld : loadOk st = true
          · rw [if_neg (not_not_intro hld)] at h ⊢
            by_cases hany : (st.phones.any
                fun d' => d'.extension == e && !(normalizeMac d'.mac == some nm)) = true
            · rw [if_pos hany] at h; simp at h
            · rw [if_neg hany]
          · rw [if_pos hld] at h; simp at h
        · rw [if_neg hee]

/-- Claim C5, counterexample: the claim as stated is false when the
configured secrets file does not yet exist on disk.  `add_phone` performs
the secrets split only under `if self.secrets_file and
self.secrets_file.exists()`, so the credential stays in the primary record
file and no secrets file is created. -/
theorem c5_counterexample :
    (addPhone missingSecretsRepo
      { mac := "001565aabbcc", model := "yealink_t23g", extension := "200"
        display_name := "X", password := "secret1" }).2 = Except.ok () ∧
    (addPhone missingSecretsRepo
      { mac := "001565aabbcc", model := "yealink_t23g", extension := "200"
        display_name := "X", password := "secret1" }).1.secretsFile = none ∧
    (addPhone missingSecretsRepo
      { mac := "001565aabbcc", model := "yealink_t23g", extension := "200"
        display_name := "X", password := "secret1" }).1.phones.map
        (fun d => d.password) = [some "secret1"] := by
  refine ⟨rfl, rfl, rfl⟩

/-- Claim C5 (amended): for every `addDevice(record)` on a repository whose
configured secrets file exists at call time, after a successful call the
secrets mapping binds the record's extension to its credential and the
record appended to the primary file carries no password field. -/
theorem c5_secrets_split (st : RepoState) (p : PhoneEntry)
    (m : List (String × String))
    (hconf : st.secretsConfigured = true) (hfile : st.secretsFile = some m)
    (hok : (addPhone st p).2 = Except.ok ()) :
    (addPhone st p).1.secretsFile = some (dictSet m p.extension p.password) ∧
    dictGet (dictSet m p.extension p.password) p.extension = some p.password ∧
    (addPhone st p).1.phones =
      st.phones ++ [{ phoneToDict p with password := none }] := by
  have hs : (st.secretsConfigured && st.secretsFile.isSome) = true := by
    rw [hconf, hfile]
    rfl
  rw [addPhone] at hok ⊢
  by_cases hld : loadOk st = true
  · rw [if_neg (not_not_intro hld)] at hok ⊢
    cases hm : normalizeMac p.mac with
    | none => rw [hm] at hok; simp at hok
    | some nm =>
      rw [hm] at hok
      dsimp only at hok ⊢
      by_cases h1 : (st.phones.any fun d => normalizeMac d.mac == some nm) = true
      · rw [if_pos h1] at hok; simp at hok
      · rw [if_neg h1] at hok ⊢
        by_cases h2 : (st.phones.any fun d => d.extension == p.extension) = true
        · rw [if_pos h2] at hok; simp at hok
        · rw [if_neg h2] at hok ⊢
          refine ⟨?_, dictGet_dictSet_self .., ?_⟩
          · rw [apply_ite Prod.fst]
            dsimp only
            rw [ite_self]
            rw [addPhoneWrites_secretsFile_secrets p hs, hfile]
            rfl
          · rw [apply_ite Prod.fst]
            dsimp only
            rw [ite_self]
            exact addPhoneWrites_phones_secrets p hs
  · rw [if_pos hld] at hok
    simp at hok

/-- Claim C5, witness: on a repository whose secrets file exists, adding a
phone with extension "300" and credential "pw3" binds "300" to "pw3" in the
secrets mapping and appends a password-free block. -/
theorem c5_secrets_split_witness :
    (addPhone secretsRepo
      { mac := "aabbccddeeff", model := "m", extension := "300"
        display_name := "C", password := "pw3" }).1.secretsFile
      = some [("200", "secret1"), ("300", "pw3")] ∧
    dictGet [("200", "secret1"), ("300", "pw3")] "300" = some "pw3" := by
  have h := c5_secrets_split secretsRepo
    { mac := "aabbccddeeff", model := "m", extension := "300"
      display_name := "C", password := "pw3" }
    [("200", "secret1")] rfl rfl rfl
  exact ⟨h.1, h.2.1⟩

/-- Claim C6: an `updateDevice` that changes the device's extension from E1
to E2 without supplying a new credential, on a repository with a configured
secrets file whose (unique-key YAML) mapping binds E1, migrates the secret
after a successful call: the mapping binds E2 to the value previously bound
to E1 and no longer contains E1. -/
theorem c6_secret_migration (st : RepoState) (mac : String) (u : PhoneUpdates)
    (e1 e2 v nm : String) (i : Nat) (hi : i < st.phones.length)
    (m : List (String × String))
    (hconf : st.secretsConfigured = true) (hfile : st.secretsFile = some m)
    (hnd : (m.map Prod.fst).Nodup)
    (hue : u.extension = some e2) (hupw : u.password = none) (hne : e1 ≠ e2)
    (hv : dictGet m e1 = some v)
    (hnm : normalizeMac mac = some nm)
    (hfind : findPhoneIdx st.phones nm = Except.ok i)
    (he1 : (st.phones.get ⟨i, hi⟩).extension = e1)
    (hok : (updatePhone st mac u).2 = Except.ok ()) :
    (updatePhone st mac u).1.secretsFile = some (dictDel (dictSet m e2 v) e1) ∧
    dictGet (dictDel (dictSet m e2 v) e1) e2 = some v ∧
    dictGet (dictDel (dictSet m e2 v) e1) e1 = none := by
  obtain ⟨nm2, i2, hi2, hnm2, hf2, heq⟩ := updatePhone_eq_commit hok
  rw [hnm] at hnm2
  injection hnm2 with hnm2
  subst hnm2
  rw [hfind] at hf2
  injection hf2 with hf2
  subst hf2
  refine ⟨?_, ?_, ?_⟩
  · rw [heq]
    exact updatePhoneCommit_secrets_migration st i _ u e1 e2 v m hconf hfile
      he1 hue hupw hne hv
  · rw [dictGet_dictDel_ne _ _ _ (Ne.symm hne), dictGet_dictSet_self]
  · exact dictGet_dictDel_self _ _ (keys_nodup_dictSet m e2 v hnd)

/-- Claim C6, witness: on the sample secrets repository, updating the phone
at extension "200" to extension "201" without a credential moves the secret
"secret1" from key "200" to key "201". -/
theorem c6_secret_migration_witness :
    (updatePhone secretsRepo "001565aabbcc"
      { extension := some "201" }).1.secretsFile = some [("201", "secret1")] ∧
    dictGet [("201", "secret1")] "201" = some "secret1" ∧
    dictGet [("201", "secret1")] "200" = none := by
  have h := c6_secret_migration secretsRepo "001565aabbcc"
    { extension := some "201" } "200" "201" "secret1" "001565aabbcc" 0
    (by decide) [("200", "secret1")] rfl rfl (by decide) rfl rfl (by decide)
    rfl rfl rfl rfl rfl
  exact ⟨h.1, h.2.1, h.2.2⟩

/-- Claim C10: an `updateDevice` that supplies both a new extension E2 and a
new credential, on a repository whose configured secrets file exists and
whose mapping binds the device's old extension E1, stores the new credential
under E2 after a successful call while the old entry under E1 is left in
place (no migration/deletion happens when a password accompanies the
update). -/
theorem c10_stale_secret (st : RepoState) (mac : String) (u : PhoneUpdates)
    (e1 e2 v pw nm : String) (i : Nat) (hi : i < st.phones.length)
    (m : List (String × String))
    (hconf : st.secretsConfigured = true) (hfile : st.secretsFile = some m)
    (hue : u.extension = some e2) (hupw : u.password = some pw)
    (hne : e1 ≠ e2) (hv : dictGet m e1 = some v)
    (hnm : normalizeMac mac = some nm)
    (hfind : findPhoneIdx st.phones nm = Except.ok i)
    (_he1 : (st.phones.get ⟨i, hi⟩).extension = e1)
    (hok : (updatePhone st mac u).2 = Except.ok ()) :
    (updatePhone st mac u).1.secretsFile = some (dictSet m e2 pw) ∧
    dictGet (dictSet m e2 pw) e2 = some pw ∧
    dictGet (dictSet m e2 pw) e1 = some v := by
  obtain ⟨nm2, i2, hi2, hnm2, hf2, heq⟩ := updatePhone_eq_commit hok
  rw [hnm] at hnm2
  injection hnm2 with hnm2
  subst hnm2
  rw [hfind] at hf2
  injection hf2 with hf2
  subst hf2
  refine ⟨?_, dictGet_dictSet_self .., ?_⟩
  · rw [heq]
    exact updatePhoneCommit_secrets_password st i _ u e2 pw m hconf hfile hue hupw
  · rw [dictGet_dictSet_ne _ _ _ _ hne, hv]

/-- Claim C10, witness: updating the phone at extension "200" to extension
"201" with the new credential "newpw" leaves the stale "200" entry in the
secrets mapping next to the new "201" entry. -/
theorem c10_stale_secret_witness :
    (updatePhone secretsRepo "001565aabbcc"
      { extension := some "201", password := some "newpw" }).1.secretsFile
      = some [("200", "secret1"), ("201", "newpw")] ∧
    dictGet [("200", "secret1"), ("201", "newpw")] "201" = some "newpw" ∧
    dictGet [("200", "secret1"), ("201", "newpw")] "200" = some "secret1" := by
  have h := c10_stale_secret secretsRepo "001565aabbcc"
    { extension := some "201", password := some "newpw" }
    "200" "201" "secret1" "newpw" "001565aabbcc" 0 (by decide)
    [("200", "secret1")] rfl rfl rfl rfl (by decide) rfl rfl rfl rfl rfl
  exact ⟨h.1, h.2.1, h.2.2⟩

end Provisioner
